import Mathlib

/-!
# gocurl: request construction and TLS credential resolution

A shallow embedding of `main.go` of vkuznet/gocurl: the helper `read`, the
credential resolver `tlsCerts`, the client factory `HttpClient` and the request
builder inside `run`, followed by theorems about them.

Modelling conventions.

* A Go `string` is a Lean `String`.  The only byte-level operations of the source
  are a test for the one-byte marker `@`, the slice `r[1:len(r)]` taken right after
  that test, and a split at the one-byte separator `/`; on those the byte view and
  the character view coincide.
* A Go `map[string]string` is the list of its entries in the order in which
  `range` visits them in the execution at hand, with pairwise distinct keys.
  A different iteration order is a permutation of the same entries.
* Everything the program asks of its surroundings (environment variables, the
  current user, the file system, the two certificate loaders, URL parsing inside
  `http.NewRequest`, the random multipart boundary) is a field of `World`.
* `log.Fatal` and a nil-pointer panic are explicit results (`Res.fatal`,
  `Res.nilDeref`).  The model of `run` stops where the request is handed to
  `client.Do`.
* Go `int` and `time.Duration` are 64-bit; the product that converts seconds to
  nanoseconds wraps modulo `2^64`.
* `Header.Set` and `Header.Add` record a value under the canonical MIME header key
  of the name they are given, as net/http does (`textproto.CanonicalMIMEHeaderKey`).
-/

namespace Gocurl

/-! ## Strings -/

/-- Go `strings.HasPrefix(s, p)`. -/
def beginsWith (s p : String) : Bool := p.data.isPrefixOf s.data

/-- Go slice `r[1:len(r)]`, used only after `beginsWith r "@"`. -/
def sliceFrom1 (r : String) : String := ⟨r.data.drop 1⟩

/-- Go `strings.Split(s, "/")`. -/
def splitSlash (s : String) : List String := (List.splitOn '/' s.data).map String.mk

/-- Go `arr[len(arr)-1]` for the non-empty result of `strings.Split`. -/
def lastOf (arr : List String) : String := arr.getLast?.getD ""

/-! ## Maps -/

/-- Go `map[string]string`: entries in `range` order, keys pairwise distinct. -/
structure GoMap where
  entries : List (String × String)
  nodup : (entries.map Prod.fst).Nodup

/-- The keys in `range` order. -/
def GoMap.keys (m : GoMap) : List String := m.entries.map Prod.fst

/-- Go `v, ok := m[k]`. -/
def GoMap.get? (m : GoMap) (k : String) : Option String := m.entries.lookup k

/-- Go `len(m)`. -/
def GoMap.len (m : GoMap) : Nat := m.entries.length

/-- The empty map. -/
def GoMap.empty : GoMap := ⟨[], List.nodup_nil⟩

/-! ## Data model -/

/-- Request represents our http request (struct `Request`). -/
structure Request where
  Url : String
  Method : String
  Data : String
  Headers : GoMap
  Forms : GoMap
  Output : String
  Key : String
  Cert : String
  RootCA : String
  Timeout : Int
  Verbose : Int

/-- A parsed `tls.Certificate`; the payload identifies what was loaded. -/
structure Certificate where
  payload : String
deriving DecidableEq

/-- The surroundings of one invocation. -/
structure World where
  /-- Go `os.Getenv`. -/
  getenv : String → String
  /-- Go `user.Current()`: the uid, or `none` when it returns an error. -/
  currentUid : Option String
  /-- Go `os.Stat(p)` returns no error. -/
  stat : String → Bool
  /-- Go `ioutil.ReadFile(p)`, also `os.Open(p)` followed by `io.Copy`; `none` is an error. -/
  readFile : String → Option String
  /-- Library `x509proxy.LoadX509Proxy(path)`; `none` is an error. -/
  loadX509Proxy : String → Option Certificate
  /-- Go `tls.LoadX509KeyPair(certFile, keyFile)`; `none` is an error. -/
  loadX509KeyPair : String → String → Option Certificate
  /-- Go `http.NewRequest` accepts the URL (it returns a nil request otherwise). -/
  parseURL : String → Bool
  /-- The boundary chosen by `multipart.NewWriter`. -/
  boundary : String

/-- The `log.Fatal` sites of `main.go`. -/
inductive Fatal where
  /-- Line 151: the data file exists but cannot be read. -/
  | readData
  /-- Line 207 via line 187: the proxy file does not parse. -/
  | proxyParse
  /-- Line 207 via line 194: the key/cert pair does not load. -/
  | keyPairLoad
  /-- Line 220: the root CA file cannot be read. -/
  | rootCA
  /-- Lines 283 and 287: a form file cannot be opened or copied. -/
  | formFile
  /-- Line 323: a method other than POST, GET, PUT, DELETE. -/
  | notImplemented
deriving DecidableEq

/-- The places of `run` that dereference the request pointer. -/
inductive Step where
  /-- Line 310: `req.Header.Set("Content-Type", ...)`. -/
  | contentType
  /-- Line 326: `req.Header.Add(key, val)`. -/
  | addHeader
  /-- Line 329: `httputil.DumpRequestOut(req, true)`. -/
  | dumpRequest
  /-- Line 332: `client.Do(req)`. -/
  | send
deriving DecidableEq

/-- Result of a computation that may abort the process. -/
inductive Res (α : Type) where
  | ok (a : α)
  | fatal (f : Fatal)
  | nilDeref (s : Step)
deriving DecidableEq

/-! ## `read` -/

/-- Helper function to read given file or return data (`read`, lines 142-157). -/
def read (w : World) (r : String) : Res String :=
  if r = "" then .ok r
  else if beginsWith r "@" then
    let fname := sliceFrom1 r
    if w.stat fname then
      match w.readFile fname with
      | none => .fatal .readData
      | some b => .ok b
    else .ok r
  else .ok r

/-! ## `tlsCerts` -/

/-- The local `uckey` after lines 162-166. -/
def resolvedKey (w : World) (key : String) : String :=
  if key ≠ "" then key else w.getenv "X509_USER_KEY"

/-- The local `ucert` after lines 163-169. -/
def resolvedCert (w : World) (cert : String) : String :=
  if cert ≠ "" then cert else w.getenv "X509_USER_CERT"

/-- The default per-user proxy file name of line 174. -/
def defaultProxyFile (uid : String) : String := "/tmp/x509up_u" ++ uid

/-- The local `uproxy` after lines 161-178. -/
def resolvedProxy (w : World) : String :=
  match w.currentUid with
  | some uid =>
    if w.stat (defaultProxyFile uid) then defaultProxyFile uid
    else w.getenv "X509_USER_PROXY"
  | none => w.getenv "X509_USER_PROXY"

/-- Client X509 certificates (`tlsCerts`, lines 160-198). -/
def tlsCerts (w : World) (key cert : String) : Res (List Certificate) :=
  let uproxy := resolvedProxy w
  let uckey := resolvedKey w key
  let ucert := resolvedCert w cert
  if uproxy = "" ∧ uckey = "" then .ok []
  else if uproxy ≠ "" then
    match w.loadX509Proxy uproxy with
    | none => .fatal .proxyParse
    | some x509cert => .ok [x509cert]
  else
    match w.loadX509KeyPair ucert uckey with
    | none => .fatal .keyPairLoad
    | some x509cert => .ok [x509cert]

/-! ## `HttpClient` -/

/-- Go `x509.CertPool`, as the PEM data appended to it. -/
structure CertPool where
  appended : List String
deriving DecidableEq

/-- Go `tls.Config`, the fields the program sets. -/
structure TLSConfig where
  Certificates : List Certificate
  RootCAs : Option CertPool
  InsecureSkipVerify : Bool
deriving DecidableEq

/-- Go `http.Transport`, the field the program sets. -/
structure Transport where
  TLSClientConfig : TLSConfig
deriving DecidableEq

/-- Go `http.Client`: `Transport = none` is the nil transport, `Timeout = 0` is
the zero value (no timeout); `Timeout` is in nanoseconds. -/
structure Client where
  Transport : Option Transport
  Timeout : Int
deriving DecidableEq

/-- Two's-complement wrap of a 64-bit signed result. -/
def wrapInt64 (x : Int) : Int := (x + 2 ^ 63) % 2 ^ 64 - 2 ^ 63

/-- Go `time.Second`, in nanoseconds. -/
def Second : Int := 1000000000

/-- HttpClient is HTTP client for urlfetch server (`HttpClient`, lines 201-241). -/
def HttpClient (w : World) (key cert rootCA : String) (tout : Int) : Res Client :=
  match tlsCerts w key cert with
  | .fatal f => .fatal f
  | .nilDeref s => .nilDeref s
  | .ok certs =>
    let timeout := wrapInt64 (tout * Second)
    if certs.length = 0 then
      if tout > 0 then .ok { Transport := none, Timeout := timeout }
      else .ok { Transport := none, Timeout := 0 }
    else
      let tr : Res Transport :=
        if rootCA ≠ "" then
          match w.readFile rootCA with
          | none => .fatal .rootCA
          | some caCert =>
            .ok { TLSClientConfig :=
                    { Certificates := certs, RootCAs := some ⟨[caCert]⟩,
                      InsecureSkipVerify := true } }
        else
          .ok { TLSClientConfig :=
                  { Certificates := certs, RootCAs := none, InsecureSkipVerify := true } }
      match tr with
      | .fatal f => .fatal f
      | .nilDeref s => .nilDeref s
      | .ok tr =>
        if tout > 0 then .ok { Transport := some tr, Timeout := timeout }
        else .ok { Transport := some tr, Timeout := 0 }

/-! ## The request builder of `run` -/

/-- One part written to the multipart writer. -/
inductive Part where
  /-- Result of `writer.CreateFormFile(key, oname)` followed by the copied file. -/
  | file (fieldname filename content : String)
  /-- Result of `writer.CreateFormField(key)` followed by the copied value. -/
  | field (fieldname value : String)
deriving DecidableEq

/-- Field name under which a part is emitted. -/
def Part.fieldname : Part → String
  | .file k _ _ => k
  | .field k _ => k

/-- The body handed to `http.NewRequest`. -/
inductive Body where
  /-- Go `bytes.NewBuffer(jsonStr)`. -/
  | raw (bytes : String)
  /-- The closed multipart writer: its boundary and its parts in emission order. -/
  | multipart (boundary : String) (parts : List Part)
deriving DecidableEq

/-- Go `validHeaderFieldByte` of net/textproto: the token bytes of RFC 7230, that
is ASCII letters and digits and the fifteen symbols with codes 33, 35-39, 42, 43,
45, 46, 94-96, 124 and 126. -/
def validHeaderFieldByte (c : Char) : Bool :=
  c.isAlphanum || c.toNat ∈ [33, 35, 36, 37, 38, 39, 42, 43, 45, 46, 94, 95, 96, 124, 126]

/-- The rewriting loop of Go `canonicalMIMEHeaderKey`: upper case for the first
letter and for a letter after a dash, lower case for every other letter. -/
def canonBytes : Bool → List Char → List Char
  | _, [] => []
  | upper, c :: cs =>
    let c1 :=
      if upper && c.isLower then c.toUpper
      else if !upper && c.isUpper then c.toLower
      else c
    c1 :: canonBytes (c1 == '-') cs

/-- Go `textproto.CanonicalMIMEHeaderKey`: a name made of token bytes only is put
in canonical form; a name with a space or another non-token byte is returned
unchanged. -/
def CanonicalMIMEHeaderKey (s : String) : String :=
  if s.data.all validHeaderFieldByte then ⟨canonBytes true s.data⟩ else s

/-- Go `http.Header`: the (key, value) pairs in the order they were recorded. -/
abbrev Header := List (String × String)

/-- Go `h[name]`: the values recorded under a key, in order. -/
def Header.values (h : Header) (name : String) : List String :=
  (h.filter (fun kv => kv.1 = name)).map Prod.snd

/-- Go `h.Set(name, value)`: replaces what was recorded under the canonical key
of the name. -/
def Header.Set (h : Header) (name value : String) : Header :=
  h.filter (fun kv => kv.1 ≠ CanonicalMIMEHeaderKey name)
    ++ [(CanonicalMIMEHeaderKey name, value)]

/-- Go `h.Add(name, value)`: appends to what was recorded under the canonical key
of the name. -/
def Header.Add (h : Header) (name value : String) : Header :=
  h ++ [(CanonicalMIMEHeaderKey name, value)]

/-- The values of the entries of a header map whose name has the given canonical
key, in `range` order. -/
def callerValues (m : GoMap) (name : String) : List String :=
  (m.entries.filter (fun kv => CanonicalMIMEHeaderKey kv.1 = name)).map Prod.snd

/-- The pair that `Header.Add` records for an entry of the header map. -/
def canonEntry (kv : String × String) : String × String :=
  (CanonicalMIMEHeaderKey kv.1, kv.2)

/-- Go `http.Request`, the fields the program determines; `Body = none` is a nil body. -/
structure HttpRequest where
  Method : String
  URL : String
  Header : Header
  Body : Option Body
deriving DecidableEq

/-- Go `http.NewRequest(method, url, body)` with the error dropped (`req, _ =`):
`none` is the nil request returned with an error. -/
def NewRequest (w : World) (method url : String) (body : Option Body) : Option HttpRequest :=
  if w.parseURL url then some { Method := method, URL := url, Header := [], Body := body }
  else none

/-- Go `writer.FormDataContentType()`. -/
def FormDataContentType (boundary : String) : String :=
  "multipart/form-data; boundary=" ++ boundary

/-- Keys of the form map with the "file" key placed last (lines 259-268). -/
def formKeys (forms : GoMap) : List String :=
  let keys := forms.entries.foldl
    (fun keys kv => if kv.1 = "file" then keys else keys ++ [kv.1]) []
  if (forms.get? "file").isSome then keys ++ ["file"] else keys

/-- Body of the loop of lines 270-306 for one key. -/
def formPart (w : World) (forms : GoMap) (key : String) : Res Part :=
  let val := (forms.get? key).getD ""
  if beginsWith val "@" then
    let fname := sliceFrom1 val
    let arr := splitSlash fname
    let oname := lastOf arr
    match w.readFile fname with
    | none => .fatal .formFile
    | some content => .ok (.file key oname content)
  else .ok (.field key val)

/-- The loop of lines 270-306 over the given keys. -/
def formParts (w : World) (forms : GoMap) : List String → Res (List Part)
  | [] => .ok []
  | key :: rest =>
    match formPart w forms key with
    | .fatal f => .fatal f
    | .nilDeref s => .nilDeref s
    | .ok p =>
      match formParts w forms rest with
      | .fatal f => .fatal f
      | .nilDeref s => .nilDeref s
      | .ok ps => .ok (p :: ps)

/-- Lines 246-324 of `run`: the value of `req` (`none` is nil) before the caller
headers are added. -/
def buildRequest (w : World) (r : Request) : Res (Option HttpRequest) :=
  if r.Method = "POST" then
    if r.Data ≠ "" then
      match read w r.Data with
      | .fatal f => .fatal f
      | .nilDeref s => .nilDeref s
      | .ok args => .ok (NewRequest w "POST" r.Url (some (.raw args)))
    else if r.Forms.len > 0 then
      match formParts w r.Forms (formKeys r.Forms) with
      | .fatal f => .fatal f
      | .nilDeref s => .nilDeref s
      | .ok parts =>
        match NewRequest w "POST" r.Url (some (.multipart w.boundary parts)) with
        | none => .nilDeref .contentType
        | some req =>
          .ok (some { req with
            Header := req.Header.Set "Content-Type" (FormDataContentType w.boundary) })
    else .ok none
  else if r.Method = "GET" then .ok (NewRequest w "GET" r.Url none)
  else if r.Method = "PUT" then
    if r.Data ≠ "" then
      match read w r.Data with
      | .fatal f => .fatal f
      | .nilDeref s => .nilDeref s
      | .ok args => .ok (NewRequest w "PUT" r.Url (some (.raw args)))
    else .ok none
  else if r.Method = "DELETE" then .ok (NewRequest w "DELETE" r.Url none)
  else .fatal .notImplemented

/-- Lines 325-327 of `run`: `req.Header.Add` for each entry of the header map. -/
def addHeaders : Option HttpRequest → List (String × String) → Res (Option HttpRequest)
  | req, [] => .ok req
  | none, _ :: _ => .nilDeref .addHeader
  | some req, kv :: rest =>
    addHeaders (some { req with Header := req.Header.Add kv.1 kv.2 }) rest

/-- Lines 328-332 of `run`: the verbose dump and the hand-over to `client.Do`. -/
def dumpAndSend (verbose : Int) (client : Client) :
    Option HttpRequest → Res (Client × HttpRequest)
  | none => if verbose > 1 then .nilDeref .dumpRequest else .nilDeref .send
  | some req => .ok (client, req)

/-- The function `run` (lines 244-332) up to the call of `client.Do`: the client
and the request that are sent, or the way the process aborts before. -/
def run (w : World) (r : Request) : Res (Client × HttpRequest) :=
  match HttpClient w r.Key r.Cert r.RootCA r.Timeout with
  | .fatal f => .fatal f
  | .nilDeref s => .nilDeref s
  | .ok client =>
    match buildRequest w r with
    | .fatal f => .fatal f
    | .nilDeref s => .nilDeref s
    | .ok req =>
      match addHeaders req r.Headers.entries with
      | .fatal f => .fatal f
      | .nilDeref s => .nilDeref s
      | .ok req => dumpAndSend r.Verbose client req

/-! ## Concrete surroundings used in examples -/

/-- A machine with no credentials, no files, and a URL parser accepting everything. -/
def bareWorld : World where
  getenv := fun _ => ""
  currentUid := some "1000"
  stat := fun _ => false
  readFile := fun _ => none
  loadX509Proxy := fun _ => none
  loadX509KeyPair := fun _ _ => none
  parseURL := fun _ => true
  boundary := "b0"

/-- The machine `bareWorld` with one readable file. -/
def oneFileWorld (path content : String) : World :=
  { bareWorld with
    stat := fun p => p = path
    readFile := fun p => if p = path then some content else none }

/-- A request with every field empty except method and URL. -/
def plainRequest (method url : String) : Request where
  Url := url
  Method := method
  Data := ""
  Headers := GoMap.empty
  Forms := GoMap.empty
  Output := ""
  Key := ""
  Cert := ""
  RootCA := ""
  Timeout := 0
  Verbose := 0

/-! ## Credential sources -/

/-- Which credential material is presented (entity `CredentialSource`). -/
inductive CredentialSource where
  | none
  | proxyFile (path : String)
  | keyCertPair (keyPath certPath : String)
deriving DecidableEq

/-- The branch `tlsCerts` takes at lines 180-197, as a credential source. -/
def credentialSource (w : World) (key cert : String) : CredentialSource :=
  if resolvedProxy w = "" ∧ resolvedKey w key = "" then .none
  else if resolvedProxy w ≠ "" then .proxyFile (resolvedProxy w)
  else .keyCertPair (resolvedKey w key) (resolvedCert w cert)

/-- Loading a credential source: lines 185-190 for a proxy file, lines 192-197
for a key/cert pair. -/
def loadSource (w : World) : CredentialSource → Res (List Certificate)
  | .none => .ok []
  | .proxyFile path =>
    match w.loadX509Proxy path with
    | none => .fatal .proxyParse
    | some x509cert => .ok [x509cert]
  | .keyCertPair keyPath certPath =>
    match w.loadX509KeyPair certPath keyPath with
    | none => .fatal .keyPairLoad
    | some x509cert => .ok [x509cert]

/-- The precedence in the words of the specification, highest first: explicit
key/cert arguments, then the key/cert environment variables, then the proxy
environment variable, then the default per-user proxy file. -/
def specCredentialSource (w : World) (key cert : String) : CredentialSource :=
  if key ≠ "" then .keyCertPair key (resolvedCert w cert)
  else if w.getenv "X509_USER_KEY" ≠ "" then
    .keyCertPair (w.getenv "X509_USER_KEY") (resolvedCert w cert)
  else if w.getenv "X509_USER_PROXY" ≠ "" then .proxyFile (w.getenv "X509_USER_PROXY")
  else
    match w.currentUid with
    | some uid =>
      if w.stat (defaultProxyFile uid) then .proxyFile (defaultProxyFile uid) else .none
    | none => .none

/-- The default per-user proxy file is present for the current user. -/
def hasDefaultProxy (w : World) : Bool :=
  match w.currentUid with
  | some uid => w.stat (defaultProxyFile uid)
  | none => false

/-- A machine whose certificate loaders accept every path and record it, with
the given environment and the given existing files. -/
def credWorld (env : String → String) (files : List String) : World :=
  { bareWorld with
    getenv := env
    stat := fun p => p ∈ files
    loadX509Proxy := fun p => some ⟨"proxy " ++ p⟩
    loadX509KeyPair := fun c k => some ⟨"pair " ++ c ++ " " ++ k⟩ }

/-- An environment that sets only `X509_USER_PROXY`. -/
def proxyEnv (path : String) : String → String :=
  fun name => if name = "X509_USER_PROXY" then path else ""


/-! ## Auxiliary facts -/

theorem beginsWith_at_append (p : String) : beginsWith ("@" ++ p) "@" = true := by
  simp [beginsWith]

theorem sliceFrom1_at_append (p : String) : sliceFrom1 ("@" ++ p) = p := by
  simp [sliceFrom1]

theorem at_append_ne_empty (p : String) : "@" ++ p ≠ "" := by
  intro h
  have := congrArg String.length h
  simp at this
  exact absurd this.1 (by decide)

theorem foldl_skip_file (l : List (String × String)) (acc : List String) :
    l.foldl (fun keys kv => if kv.1 = "file" then keys else keys ++ [kv.1]) acc
      = acc ++ (l.map Prod.fst).filter (fun k => k ≠ "file") := by
  induction l generalizing acc with
  | nil => simp
  | cons kv rest ih =>
    by_cases h : kv.1 = "file"
    · simp [List.foldl_cons, h, ih]
    · simp [List.foldl_cons, h, ih]

theorem lookup_isSome_iff_mem_keys (l : List (String × String)) (k : String) :
    (l.lookup k).isSome = true ↔ k ∈ l.map Prod.fst := by
  induction l with
  | nil => simp
  | cons kv rest ih =>
    obtain ⟨a, b⟩ := kv
    by_cases h : k = a
    · subst h; simp [List.lookup]
    · have h2 : (k == a) = false := by simpa using h
      simp [List.lookup, h2, ih, h]

theorem formKeys_eq (forms : GoMap) :
    formKeys forms = forms.keys.filter (fun k => k ≠ "file")
      ++ (if "file" ∈ forms.keys then ["file"] else []) := by
  unfold formKeys GoMap.get? GoMap.keys
  simp only [foldl_skip_file, List.nil_append]
  by_cases h : "file" ∈ forms.entries.map Prod.fst
  · have := (lookup_isSome_iff_mem_keys forms.entries "file").2 h
    simp [this, h]
  · have : (forms.entries.lookup "file").isSome = false := by
      rw [Bool.eq_false_iff]; intro hc
      exact h ((lookup_isSome_iff_mem_keys forms.entries "file").1 hc)
    rw [if_neg (by simp [this]), if_neg h]; simp

theorem formParts_fieldnames (w : World) (forms : GoMap) (keys : List String) :
    ∀ parts, formParts w forms keys = .ok parts → parts.map Part.fieldname = keys := by
  induction keys with
  | nil => intro parts h; simp [formParts] at h; subst h; rfl
  | cons key rest ih =>
    intro parts h
    unfold formParts at h
    cases hp : formPart w forms key with
    | fatal f => simp [hp] at h
    | nilDeref s => simp [hp] at h
    | ok p =>
      cases hr : formParts w forms rest with
      | fatal f => simp [hp, hr] at h
      | nilDeref s => simp [hp, hr] at h
      | ok ps =>
        simp [hp, hr] at h
        subst h
        have hk : p.fieldname = key := by
          unfold formPart at hp
          simp only at hp
          split at hp
          · split at hp
            · simp at hp
            · simp at hp; subst hp; rfl
          · simp at hp; subst hp; rfl
        simp [hk, ih ps hr]

theorem addHeaders_some (req : HttpRequest) (l : List (String × String)) :
    addHeaders (some req) l
      = .ok (some { req with Header := req.Header ++ l.map canonEntry }) := by
  induction l generalizing req with
  | nil => simp [addHeaders]
  | cons kv rest ih =>
    rw [addHeaders, ih]
    simp [Header.Add, canonEntry, List.append_assoc]

theorem addHeaders_none (l : List (String × String)) :
    addHeaders none l = if l = [] then .ok none else .nilDeref .addHeader := by
  cases l with
  | nil => simp [addHeaders]
  | cons kv rest => simp [addHeaders]

theorem run_ok_iff (w : World) (r : Request) (c : Client) (req : HttpRequest) :
    run w r = .ok (c, req) ↔
      HttpClient w r.Key r.Cert r.RootCA r.Timeout = .ok c
      ∧ ∃ req0, buildRequest w r = .ok (some req0)
          ∧ req = { req0 with
                      Header := req0.Header ++ r.Headers.entries.map canonEntry } := by
  unfold run
  cases hc : HttpClient w r.Key r.Cert r.RootCA r.Timeout with
  | fatal f => simp
  | nilDeref s => simp
  | ok client =>
    cases hb : buildRequest w r with
    | fatal f => simp
    | nilDeref s => simp
    | ok req0 =>
      cases req0 with
      | none =>
        simp only [addHeaders_none]
        by_cases hl : r.Headers.entries = []
        · simp only [hl, if_true, dumpAndSend]
          split <;> simp
        · simp [hl]
      | some q =>
        simp only [addHeaders_some, dumpAndSend, Res.ok.injEq, Prod.mk.injEq, Option.some.injEq]
        constructor
        · rintro ⟨h1, h2⟩
          exact ⟨h1, q, rfl, h2.symm⟩
        · rintro ⟨h1, q', h2, h3⟩
          subst h2
          exact ⟨h1, h3.symm⟩

theorem buildRequest_get_delete (w : World) (r : Request)
    (h : r.Method = "GET" ∨ r.Method = "DELETE") :
    buildRequest w r = .ok (NewRequest w r.Method r.Url none) := by
  unfold buildRequest
  rcases h with h | h
  · rw [h]; simp
  · rw [h]; simp


theorem tlsCerts_eq_loadSource (w : World) (key cert : String) :
    tlsCerts w key cert = loadSource w (credentialSource w key cert) := by
  unfold tlsCerts credentialSource
  simp only
  split
  · rfl
  · split <;> rfl

theorem credentialSource_of_proxy (w : World) (key cert : String)
    (h : resolvedProxy w ≠ "") :
    credentialSource w key cert = .proxyFile (resolvedProxy w) := by
  unfold credentialSource
  rw [if_neg (fun hc => h hc.1), if_pos h]


theorem values_append (h l : Header) (name : String) :
    Header.values (h ++ l) name = Header.values h name ++ Header.values l name := by
  simp [Header.values]

theorem values_eq_lookup (l : List (String × String)) (hnd : (l.map Prod.fst).Nodup)
    (name : String) : Header.values l name = (l.lookup name).toList := by
  induction l with
  | nil => simp [Header.values]
  | cons kv rest ih =>
    obtain ⟨a, b⟩ := kv
    have hnd' : (rest.map Prod.fst).Nodup := (List.nodup_cons.1 hnd).2
    have ha : a ∉ rest.map Prod.fst := (List.nodup_cons.1 hnd).1
    have ih' := ih hnd'
    unfold Header.values at ih' ⊢
    by_cases h : name = a
    · subst h
      have hnone : rest.filter (fun kv => decide (kv.1 = name)) = [] := by
        rw [List.filter_eq_nil_iff]
        intro kv hkv hc
        apply ha
        have : kv.1 = name := by simpa using hc
        rw [← this]
        exact List.mem_map_of_mem _ hkv
      simp [List.lookup, List.filter_cons, hnone]
    · have h2 : (name == a) = false := by simpa using h
      have h3 : ¬ a = name := fun hc => h hc.symm
      simp [List.lookup, List.filter_cons, h2, h3]
      simpa using ih'

theorem canonical_content_type : CanonicalMIMEHeaderKey "Content-Type" = "Content-Type" := by
  decide

theorem values_map_canonEntry (l : List (String × String)) (name : String) :
    Header.values (l.map canonEntry) name
      = (l.filter (fun kv => CanonicalMIMEHeaderKey kv.1 = name)).map Prod.snd := by
  induction l with
  | nil => simp [Header.values]
  | cons kv rest ih =>
    unfold Header.values at ih ⊢
    by_cases h : CanonicalMIMEHeaderKey kv.1 = name
    · simp [List.filter_cons, canonEntry, h] at ih ⊢
      exact ih
    · simp [List.filter_cons, canonEntry, h] at ih ⊢
      exact ih

theorem callerValues_of_canonical (m : GoMap)
    (hcanon : ∀ k, k ∈ m.keys → CanonicalMIMEHeaderKey k = k) (name : String) :
    callerValues m name = (m.get? name).toList := by
  unfold callerValues GoMap.get?
  rw [← values_eq_lookup m.entries m.nodup name]
  unfold Header.values
  congr 1
  apply List.filter_congr
  intro kv hkv
  have hk : kv.1 ∈ m.keys := List.mem_map_of_mem _ hkv
  rw [hcanon kv.1 hk]

theorem callerValues_perm (m m' : GoMap) (hp : m'.entries.Perm m.entries) (name : String) :
    (callerValues m' name).Perm (callerValues m name) := by
  unfold callerValues
  exact (hp.filter _).map _

theorem length_le_one_of_all_eq {α : Type} (l : List α) (hnd : l.Nodup)
    (heq : ∀ a, a ∈ l → ∀ b, b ∈ l → a = b) : l.length ≤ 1 := by
  match l, hnd, heq with
  | [], _, _ => simp
  | [_], _, _ => simp
  | a :: b :: t, hnd, heq =>
    exfalso
    have hab : a = b := heq a (by simp) b (by simp)
    have hna : a ∉ b :: t := (List.nodup_cons.1 hnd).1
    exact hna (by rw [hab]; simp)

theorem eq_of_perm_of_length_le_one {α : Type} (l l' : List α) (hp : l'.Perm l)
    (hlen : l.length ≤ 1) : l' = l := by
  match l, hp, hlen with
  | [], hp, _ => exact List.perm_nil.1 hp
  | [a], hp, _ => exact List.perm_singleton.1 hp
  | _ :: _ :: _, _, hlen => simp at hlen

theorem callerEntries_length_le_one (m : GoMap) (name : String)
    (hinj : ∀ k, k ∈ m.keys → ∀ k', k' ∈ m.keys →
      CanonicalMIMEHeaderKey k = CanonicalMIMEHeaderKey k' → k = k') :
    (m.entries.filter (fun kv => CanonicalMIMEHeaderKey kv.1 = name)).length ≤ 1 := by
  have hsub : ((m.entries.filter (fun kv => CanonicalMIMEHeaderKey kv.1 = name)).map
      Prod.fst).Sublist (m.entries.map Prod.fst) := (List.filter_sublist _).map _
  have hnd := hsub.nodup m.nodup
  have hlen := length_le_one_of_all_eq _ hnd (by
    intro a ha b hb
    obtain ⟨kva, hkva, rfl⟩ := List.mem_map.1 ha
    obtain ⟨kvb, hkvb, rfl⟩ := List.mem_map.1 hb
    have h1 := List.mem_filter.1 hkva
    have h2 := List.mem_filter.1 hkvb
    have e1 : CanonicalMIMEHeaderKey kva.1 = name := by simpa using h1.2
    have e2 : CanonicalMIMEHeaderKey kvb.1 = name := by simpa using h2.2
    exact hinj kva.1 (List.mem_map_of_mem _ h1.1) kvb.1 (List.mem_map_of_mem _ h2.1)
      (e1.trans e2.symm))
  simpa using hlen

theorem callerValues_single (m : GoMap) (name k v : String)
    (hmem : (k, v) ∈ m.entries) (hk : CanonicalMIMEHeaderKey k = name)
    (huniq : ∀ k', k' ∈ m.keys → CanonicalMIMEHeaderKey k' = name → k' = k) :
    callerValues m name = [v] := by
  have hsub : ((m.entries.filter (fun kv => CanonicalMIMEHeaderKey kv.1 = name)).map
      Prod.fst).Sublist (m.entries.map Prod.fst) := (List.filter_sublist _).map _
  have hnd := hsub.nodup m.nodup
  have hkey : ∀ kv, kv ∈ m.entries.filter (fun kv => CanonicalMIMEHeaderKey kv.1 = name) →
      kv.1 = k := by
    intro kv hkv
    have h1 := List.mem_filter.1 hkv
    exact huniq kv.1 (List.mem_map_of_mem _ h1.1) (by simpa using h1.2)
  have hlen := length_le_one_of_all_eq _ hnd (by
    intro a ha b hb
    obtain ⟨kva, hkva, rfl⟩ := List.mem_map.1 ha
    obtain ⟨kvb, hkvb, rfl⟩ := List.mem_map.1 hb
    rw [hkey kva hkva, hkey kvb hkvb])
  have hin : (k, v) ∈ m.entries.filter (fun kv => CanonicalMIMEHeaderKey kv.1 = name) :=
    List.mem_filter.2 ⟨hmem, by simpa using hk⟩
  unfold callerValues
  generalize m.entries.filter (fun kv => CanonicalMIMEHeaderKey kv.1 = name) = f at hlen hin
  match f, hlen, hin with
  | [x], _, hin =>
    have : (k, v) = x := by simpa using hin
    subst this
    rfl
  | _ :: _ :: _, hlen, _ => simp at hlen

theorem callerValues_none (m : GoMap) (name : String)
    (hno : ∀ k, k ∈ m.keys → CanonicalMIMEHeaderKey k ≠ name) :
    callerValues m name = [] := by
  unfold callerValues
  rw [List.map_eq_nil_iff, List.filter_eq_nil_iff]
  intro kv hkv hc
  exact hno kv.1 (List.mem_map_of_mem _ hkv) (by simpa using hc)

/-- The request is built by the multipart branch (lines 253-311). -/
theorem buildRequest_header (w : World) (r : Request) (req0 : HttpRequest)
    (hb : buildRequest w r = .ok (some req0)) :
    req0.Header
      = if r.Method = "POST" ∧ r.Data = "" ∧ r.Forms.len > 0
        then [("Content-Type", FormDataContentType w.boundary)] else [] := by
  have hnew : ∀ m u b q, NewRequest w m u b = some q → q.Header = [] := by
    intro m u b q h
    unfold NewRequest at h
    split at h
    · simp at h; subst h; rfl
    · simp at h
  unfold buildRequest at hb
  by_cases hpost : r.Method = "POST"
  · rw [if_pos hpost] at hb
    by_cases hd : r.Data = ""
    · rw [if_neg (by simp [hd])] at hb
      by_cases hf : r.Forms.len > 0
      · rw [if_pos hf] at hb
        rw [if_pos ⟨hpost, hd, hf⟩]
        split at hb
        · simp at hb
        · simp at hb
        · split at hb
          · simp at hb
          · rename_i q hq
            simp only [Res.ok.injEq, Option.some.injEq] at hb
            subst hb
            simp [hnew _ _ _ _ hq, Header.Set, canonical_content_type]
      · rw [if_neg hf] at hb
        simp at hb
    · rw [if_pos hd] at hb
      rw [if_neg (fun hc => hd hc.2.1)]
      split at hb
      · simp at hb
      · simp at hb
      · simp only [Res.ok.injEq] at hb
        exact hnew _ _ _ _ hb
  · rw [if_neg hpost] at hb
    rw [if_neg (fun hc => hpost hc.1)]
    split at hb
    · simp only [Res.ok.injEq] at hb
      exact hnew _ _ _ _ hb
    · split at hb
      · split at hb
        · split at hb
          · simp at hb
          · simp at hb
          · simp only [Res.ok.injEq] at hb
            exact hnew _ _ _ _ hb
        · simp at hb
      · split at hb
        · simp only [Res.ok.injEq] at hb
          exact hnew _ _ _ _ hb
        · simp at hb

theorem run_header_values (w : World) (r : Request) (c : Client) (req : HttpRequest)
    (hrun : run w r = .ok (c, req)) (name : String) :
    req.Header.values name
      = (if r.Method = "POST" ∧ r.Data = "" ∧ r.Forms.len > 0 ∧ name = "Content-Type"
         then [FormDataContentType w.boundary] else [])
        ++ callerValues r.Headers name := by
  obtain ⟨_, req0, hreq0, hreq⟩ := (run_ok_iff w r c req).1 hrun
  have hh := buildRequest_header w r req0 hreq0
  subst hreq
  simp only [values_append, hh, values_map_canonEntry]
  unfold callerValues
  congr 1
  by_cases hm : r.Method = "POST" ∧ r.Data = "" ∧ r.Forms.len > 0
  · rw [if_pos hm]
    by_cases hn : name = "Content-Type"
    · rw [if_pos ⟨hm.1, hm.2.1, hm.2.2, hn⟩]; subst hn; simp [Header.values]
    · rw [if_neg (fun hc => hn hc.2.2.2)]
      have : ¬ "Content-Type" = name := fun hc => hn hc.symm
      simp [Header.values, this]
  · rw [if_neg hm, if_neg (fun hc => hm ⟨hc.1, hc.2.1, hc.2.2.1⟩)]
    simp [Header.values]

theorem buildRequest_raw (w : World) (r : Request)
    (hm : r.Method = "POST" ∨ r.Method = "PUT") (hd : r.Data ≠ "") :
    buildRequest w r
      = (match read w r.Data with
         | .ok args => .ok (NewRequest w r.Method r.Url (some (.raw args)))
         | .fatal f => .fatal f
         | .nilDeref s => .nilDeref s) := by
  unfold buildRequest
  rcases hm with hm | hm
  · rw [hm]
    simp only [if_true, if_pos hd]
    cases read w r.Data <;> rfl
  · rw [hm]
    simp only [if_pos hd]
    cases read w r.Data <;> simp

theorem buildRequest_nil_of_no_data (w : World) (r : Request)
    (h : (r.Method = "PUT" ∧ r.Data = "")
       ∨ (r.Method = "POST" ∧ r.Data = "" ∧ r.Forms.len = 0)) :
    buildRequest w r = .ok none := by
  unfold buildRequest
  rcases h with ⟨hm, hd⟩ | ⟨hm, hd, hf⟩
  · rw [hm, hd]; simp
  · rw [hm, hd, hf]; simp

theorem run_of_nil_request (w : World) (r : Request) (hb : buildRequest w r = .ok none) :
    run w r
      = (match HttpClient w r.Key r.Cert r.RootCA r.Timeout with
         | .fatal f => .fatal f
         | .nilDeref s => .nilDeref s
         | .ok _ =>
           if r.Headers.len > 0 then .nilDeref .addHeader
           else if r.Verbose > 1 then .nilDeref .dumpRequest
           else .nilDeref .send) := by
  unfold run
  rw [hb]
  cases HttpClient w r.Key r.Cert r.RootCA r.Timeout with
  | fatal f => rfl
  | nilDeref s => rfl
  | ok c =>
    simp only [addHeaders_none, GoMap.len]
    by_cases hl : r.Headers.entries = []
    · simp only [hl, if_true, dumpAndSend, List.length_nil, gt_iff_lt, lt_self_iff_false,
        if_false]
    · have hpos : r.Headers.entries.length > 0 := List.length_pos.2 hl
      simp only [if_neg hl, if_pos hpos]

theorem wrapInt64_of_fits (x : Int) (hlo : -9223372036854775808 ≤ x)
    (hhi : x ≤ 9223372036854775807) : wrapInt64 x = x := by
  unfold wrapInt64
  norm_num
  omega

theorem tlsCerts_ok_length (w : World) (key cert : String) (certs : List Certificate)
    (h : tlsCerts w key cert = .ok certs) : certs.length ≤ 1 := by
  unfold tlsCerts at h
  simp only at h
  split at h
  · simp at h; subst h; simp
  · split at h
    · split at h
      · simp at h
      · simp at h; subst h; simp
    · split at h
      · simp at h
      · simp at h; subst h; simp

theorem HttpClient_no_certs (w : World) (key cert rootCA : String) (tout : Int)
    (h : tlsCerts w key cert = .ok []) :
    HttpClient w key cert rootCA tout
      = .ok ⟨none, if tout > 0 then wrapInt64 (tout * Second) else 0⟩ := by
  unfold HttpClient
  rw [h]
  by_cases ht : tout > 0
  · simp [ht]
  · simp [ht]

theorem HttpClient_with_certs (w : World) (key cert rootCA : String) (tout : Int)
    (certs : List Certificate) (hne : certs ≠ []) (h : tlsCerts w key cert = .ok certs)
    (c : Client) (hc : HttpClient w key cert rootCA tout = .ok c) :
    ∃ tr, c.Transport = some tr ∧ tr.TLSClientConfig.InsecureSkipVerify = true
      ∧ tr.TLSClientConfig.Certificates = certs := by
  unfold HttpClient at hc
  rw [h] at hc
  have hlen : ¬ certs.length = 0 := by
    intro h0; exact hne (List.length_eq_zero.1 h0)
  simp only [if_neg hlen] at hc
  by_cases hr : rootCA ≠ ""
  · simp only [if_pos hr] at hc
    cases hf : w.readFile rootCA with
    | none => simp [hf] at hc
    | some ca =>
      simp only [hf] at hc
      by_cases ht : tout > 0
      · simp only [if_pos ht, Res.ok.injEq] at hc
        subst hc; exact ⟨_, rfl, rfl, rfl⟩
      · simp only [if_neg ht, Res.ok.injEq] at hc
        subst hc; exact ⟨_, rfl, rfl, rfl⟩
  · simp only [if_neg hr] at hc
    by_cases ht : tout > 0
    · simp only [if_pos ht, Res.ok.injEq] at hc
      subst hc; exact ⟨_, rfl, rfl, rfl⟩
    · simp only [if_neg ht, Res.ok.injEq] at hc
      subst hc; exact ⟨_, rfl, rfl, rfl⟩


theorem buildRequest_multipart_fieldnames (w : World) (r : Request)
    (hm : r.Method = "POST") (hd : r.Data = "") (hf : r.Forms.len > 0)
    (req : HttpRequest) (hb : buildRequest w r = .ok (some req)) :
    ∃ parts, req.Body = some (.multipart w.boundary parts)
      ∧ parts.map Part.fieldname = formKeys r.Forms := by
  unfold buildRequest at hb
  rw [if_pos hm, if_neg (by simp [hd]), if_pos hf] at hb
  cases hp : formParts w r.Forms (formKeys r.Forms) with
  | fatal f => simp [hp] at hb
  | nilDeref s => simp [hp] at hb
  | ok parts =>
    simp only [hp] at hb
    by_cases hu : w.parseURL r.Url = true
    · simp only [NewRequest, if_pos hu, Res.ok.injEq, Option.some.injEq] at hb
      subst hb
      exact ⟨parts, rfl, formParts_fieldnames w r.Forms _ parts hp⟩
    · simp [NewRequest, hu] at hb

/-! ## Theorems -/

/-- C1: round trip of the file indirection. If the file at path `p` exists, is
readable and contains exactly `s`, then `read ("@" ++ p)` returns exactly `s`:
neither the marker nor the path is part of the result and nothing is trimmed or
appended. -/
theorem read_file_indirection_roundtrip (w : World) (p s : String)
    (hstat : w.stat p = true) (hread : w.readFile p = some s) :
    read w ("@" ++ p) = .ok s := by
  unfold read
  rw [if_neg (at_append_ne_empty p), if_pos (beginsWith_at_append p)]
  simp [sliceFrom1_at_append, hstat, hread]

/-- Witness for C1: the scenario of `Test_read`. -/
theorem read_file_indirection_roundtrip_witness :
    (oneFileWorld "/tmp/gocurl-1" "gocurl-test").stat "/tmp/gocurl-1" = true
    ∧ (oneFileWorld "/tmp/gocurl-1" "gocurl-test").readFile "/tmp/gocurl-1" = some "gocurl-test"
    ∧ read (oneFileWorld "/tmp/gocurl-1" "gocurl-test") ("@" ++ "/tmp/gocurl-1")
        = .ok "gocurl-test" :=
  ⟨by decide, by decide,
   read_file_indirection_roundtrip (oneFileWorld "/tmp/gocurl-1" "gocurl-test")
     "/tmp/gocurl-1" "gocurl-test" (by decide) (by decide)⟩

/-- C2: multipart field ordering. For a form map that contains the key "file",
the key list used to emit the parts is the `range` order with "file" taken out,
followed by "file": "file" is last and occurs once, every key of the map occurs
once, no other key occurs, the other keys keep their relative order, and the
parts of the multipart body that `run` builds (method POST, empty `Data`) are
emitted under exactly these names in this order. -/
theorem formKeys_file_last (forms : GoMap) (hfile : "file" ∈ forms.keys) :
    formKeys forms = forms.keys.filter (fun k => k ≠ "file") ++ ["file"]
    ∧ (formKeys forms).getLast? = some "file"
    ∧ (formKeys forms).count "file" = 1
    ∧ (∀ k, k ∈ forms.keys → (formKeys forms).count k = 1)
    ∧ (∀ k, k ∈ formKeys forms → k ∈ forms.keys)
    ∧ (formKeys forms).filter (fun k => k ≠ "file") = forms.keys.filter (fun k => k ≠ "file")
    ∧ (∀ w parts, formParts w forms (formKeys forms) = .ok parts →
        parts.map Part.fieldname = formKeys forms)
    ∧ (∀ (w : World) (r : Request) (req : HttpRequest),
        r.Method = "POST" → r.Data = "" → r.Forms = forms →
        buildRequest w r = .ok (some req) →
        ∃ parts, req.Body = some (.multipart w.boundary parts)
          ∧ parts.map Part.fieldname = formKeys forms) := by
  have heq : formKeys forms = forms.keys.filter (fun k => k ≠ "file") ++ ["file"] := by
    rw [formKeys_eq, if_pos hfile]
  have hnd : (formKeys forms).Nodup := by
    rw [heq]
    apply List.Nodup.append
    · exact (forms.nodup).filter _
    · simp
    · intro a ha hb
      simp at hb
      subst hb
      simp at ha
  have hmem : ∀ k, k ∈ formKeys forms ↔ k ∈ forms.keys := by
    intro k
    rw [heq]
    simp only [List.mem_append, List.mem_filter, List.mem_singleton]
    constructor
    · rintro (⟨h, _⟩ | h)
      · exact h
      · subst h; exact hfile
    · intro h
      by_cases hk : k = "file"
      · exact Or.inr hk
      · exact Or.inl ⟨h, by simpa using hk⟩
  refine ⟨heq, ?_, ?_, ?_, ?_, ?_, ?_, ?_⟩
  rotate_right
  · intro w r req hm hd hforms hb
    subst hforms
    have hlen : r.Forms.len > 0 := by
      unfold GoMap.len
      unfold GoMap.keys at hfile
      cases hE : r.Forms.entries with
      | nil => rw [hE] at hfile; simp at hfile
      | cons kv rest => simp
    exact buildRequest_multipart_fieldnames w r hm hd hlen req hb
  · rw [heq]; simp
  · exact List.count_eq_one_of_mem hnd ((hmem _).2 hfile)
  · intro k hk
    exact List.count_eq_one_of_mem hnd ((hmem k).2 hk)
  · intro k hk
    exact (hmem k).1 hk
  · rw [heq]
    simp [List.filter_append, List.filter_filter]
  · intro w parts h
    exact formParts_fieldnames w forms _ parts h

/-- Witness for C2: the map of the specification scenario, visited "file" first. -/
theorem formKeys_file_last_witness :
    "file" ∈ GoMap.keys ⟨[("file", "@/tmp/x.txt"), ("name", "bob"), ("age", "7")], by decide⟩
    ∧ formKeys ⟨[("file", "@/tmp/x.txt"), ("name", "bob"), ("age", "7")], by decide⟩
        = ["name", "age", "file"] :=
  ⟨by decide,
   (formKeys_file_last ⟨[("file", "@/tmp/x.txt"), ("name", "bob"), ("age", "7")], by decide⟩
     (by decide)).1⟩

/-- C3: GET and DELETE never carry a body. Whatever `Data` and `Forms` hold, the
request builder yields the request with the given method and URL, no headers of
its own and no body (nil when the URL does not parse); the result is the same for
every other `Data` and `Forms` and in every file system, so neither `read(Data)`
nor a form file is consulted; and whenever `run` sends a request it has this
method, this URL and no body. -/
theorem get_delete_no_body (w : World) (r : Request)
    (h : r.Method = "GET" ∨ r.Method = "DELETE") :
    buildRequest w r
      = .ok (if w.parseURL r.Url = true
             then some { Method := r.Method, URL := r.Url, Header := [], Body := none }
             else none)
    ∧ (∀ (data : String) (forms : GoMap),
        buildRequest w { r with Data := data, Forms := forms } = buildRequest w r)
    ∧ (∀ (stat : String → Bool) (readFile : String → Option String),
        buildRequest { w with stat := stat, readFile := readFile } r = buildRequest w r)
    ∧ (∀ c req, run w r = .ok (c, req) →
        req.Method = r.Method ∧ req.URL = r.Url ∧ req.Body = none) := by
  have hb := buildRequest_get_delete w r h
  refine ⟨?_, ?_, ?_, ?_⟩
  · rw [hb]; unfold NewRequest; split <;> rfl
  · intro data forms
    rw [hb, buildRequest_get_delete w { r with Data := data, Forms := forms } h]
  · intro stat readFile
    rw [hb, buildRequest_get_delete { w with stat := stat, readFile := readFile } r h]
    rfl
  · intro c req hrun
    obtain ⟨_, req0, hreq0, hreq⟩ := (run_ok_iff w r c req).1 hrun
    rw [hb] at hreq0
    unfold NewRequest at hreq0
    split at hreq0
    · simp only [Res.ok.injEq, Option.some.injEq] at hreq0
      subst hreq0
      subst hreq
      exact ⟨rfl, rfl, rfl⟩
    · simp at hreq0

/-- Witness for C3: a DELETE with non-empty data and a form file that does not exist. -/
theorem get_delete_no_body_witness :
    ("DELETE" = "GET" ∨ "DELETE" = "DELETE")
    ∧ run bareWorld
        { plainRequest "DELETE" "http://example.test/item" with
          Data := "@/no/such/file"
          Forms := ⟨[("file", "@/no/such/form")], by decide⟩ }
      = .ok (⟨none, 0⟩, ⟨"DELETE", "http://example.test/item", [], none⟩)
    ∧ buildRequest bareWorld
        { plainRequest "DELETE" "http://example.test/item" with
          Data := "@/no/such/file"
          Forms := ⟨[("file", "@/no/such/form")], by decide⟩ }
      = .ok (if bareWorld.parseURL "http://example.test/item" = true
             then some ⟨"DELETE", "http://example.test/item", [], none⟩ else none) :=
  ⟨Or.inr rfl, by decide,
   (get_delete_no_body bareWorld
      { plainRequest "DELETE" "http://example.test/item" with
        Data := "@/no/such/file"
        Forms := ⟨[("file", "@/no/such/form")], by decide⟩ } (Or.inr rfl)).1⟩

/-- C4: precedence of the proxy over the key/cert pair. Whenever the resolved
proxy path is non-empty, `tlsCerts` returns what loading that proxy file returns
and its result is the same for every key/cert loader (the pair is never
loaded), whether or not a key/cert pair is available; the key/cert pair is
loaded exactly when the resolved proxy path is empty and a key path is
available. -/
theorem tlsCerts_proxy_precedence (w : World) (key cert : String) :
    (resolvedProxy w ≠ "" →
      tlsCerts w key cert
        = (match w.loadX509Proxy (resolvedProxy w) with
           | none => .fatal .proxyParse
           | some c => .ok [c])
      ∧ ∀ loader : String → String → Option Certificate,
          tlsCerts { w with loadX509KeyPair := loader } key cert = tlsCerts w key cert)
    ∧ (resolvedProxy w = "" → resolvedKey w key ≠ "" →
      tlsCerts w key cert
        = (match w.loadX509KeyPair (resolvedCert w cert) (resolvedKey w key) with
           | none => .fatal .keyPairLoad
           | some c => .ok [c])) := by
  refine ⟨?_, ?_⟩
  · intro h
    refine ⟨?_, ?_⟩
    · rw [tlsCerts_eq_loadSource, credentialSource_of_proxy w key cert h]; rfl
    · intro loader
      have h' : resolvedProxy { w with loadX509KeyPair := loader } ≠ "" := h
      rw [tlsCerts_eq_loadSource, tlsCerts_eq_loadSource,
        credentialSource_of_proxy w key cert h, credentialSource_of_proxy _ key cert h']
      rfl
  · intro hp hk
    unfold tlsCerts
    simp only
    rw [if_neg (fun hc => hk hc.2), if_neg (by simp [hp])]

/-- Witness for C4: a proxy path from the environment together with an explicit
key/cert pair; the proxy file is what gets loaded. -/
theorem tlsCerts_proxy_precedence_witness :
    resolvedProxy (credWorld (proxyEnv "/home/u/proxy.pem") []) ≠ ""
    ∧ resolvedKey (credWorld (proxyEnv "/home/u/proxy.pem") []) "user.key" ≠ ""
    ∧ tlsCerts (credWorld (proxyEnv "/home/u/proxy.pem") []) "user.key" "user.cert"
        = (match (credWorld (proxyEnv "/home/u/proxy.pem") []).loadX509Proxy
                 (resolvedProxy (credWorld (proxyEnv "/home/u/proxy.pem") [])) with
           | none => .fatal .proxyParse
           | some c => .ok [c]) :=
  ⟨by decide, by decide,
   ((tlsCerts_proxy_precedence (credWorld (proxyEnv "/home/u/proxy.pem") [])
      "user.key" "user.cert").1 (by decide)).1⟩

/-- C5 as stated fails: with explicit key/cert arguments and `X509_USER_PROXY`
both set, `tlsCerts` loads the proxy file, not the explicit pair the stated
precedence selects; and with `X509_USER_PROXY` set and the default per-user proxy
file present, it loads the default file, not the one named by the variable. -/
theorem tlsCerts_stated_precedence_counterexample :
    tlsCerts (credWorld (proxyEnv "/home/u/proxy.pem") []) "user.key" "user.cert"
      = .ok [⟨"proxy /home/u/proxy.pem"⟩]
    ∧ loadSource (credWorld (proxyEnv "/home/u/proxy.pem") [])
        (specCredentialSource (credWorld (proxyEnv "/home/u/proxy.pem") []) "user.key" "user.cert")
      = .ok [⟨"pair user.cert user.key"⟩]
    ∧ credentialSource (credWorld (proxyEnv "/home/u/proxy.pem") []) "user.key" "user.cert"
      ≠ specCredentialSource (credWorld (proxyEnv "/home/u/proxy.pem") []) "user.key" "user.cert"
    ∧ tlsCerts (credWorld (proxyEnv "/home/u/proxy.pem") ["/tmp/x509up_u1000"]) "" ""
      = .ok [⟨"proxy /tmp/x509up_u1000"⟩]
    ∧ loadSource (credWorld (proxyEnv "/home/u/proxy.pem") ["/tmp/x509up_u1000"])
        (specCredentialSource (credWorld (proxyEnv "/home/u/proxy.pem") ["/tmp/x509up_u1000"]) "" "")
      = .ok [⟨"proxy /home/u/proxy.pem"⟩] := by
  refine ⟨by decide, by decide, by decide, by decide, by decide⟩

/-- C5 amended: the precedence `tlsCerts` implements, highest first, is the
default per-user proxy file when it exists, then `X509_USER_PROXY`, then the
key/cert pair, whose key slot is the explicit key argument when non-empty and
`X509_USER_KEY` otherwise (likewise for the cert slot); there is no credential
when no proxy path and no key path is available. `tlsCerts` returns what loading
the source so selected returns. -/
theorem tlsCerts_precedence_layers (w : World) (key cert : String) :
    tlsCerts w key cert = loadSource w (credentialSource w key cert)
    ∧ (∀ uid, w.currentUid = some uid → w.stat (defaultProxyFile uid) = true →
        credentialSource w key cert = .proxyFile (defaultProxyFile uid))
    ∧ (hasDefaultProxy w = false → w.getenv "X509_USER_PROXY" ≠ "" →
        credentialSource w key cert = .proxyFile (w.getenv "X509_USER_PROXY"))
    ∧ (hasDefaultProxy w = false → w.getenv "X509_USER_PROXY" = "" → key ≠ "" →
        credentialSource w key cert
          = .keyCertPair key (if cert ≠ "" then cert else w.getenv "X509_USER_CERT"))
    ∧ (hasDefaultProxy w = false → w.getenv "X509_USER_PROXY" = "" → key = "" →
        w.getenv "X509_USER_KEY" ≠ "" →
        credentialSource w key cert
          = .keyCertPair (w.getenv "X509_USER_KEY")
              (if cert ≠ "" then cert else w.getenv "X509_USER_CERT"))
    ∧ (hasDefaultProxy w = false → w.getenv "X509_USER_PROXY" = "" → key = "" →
        w.getenv "X509_USER_KEY" = "" → credentialSource w key cert = .none) := by
  have hnodef : hasDefaultProxy w = false → resolvedProxy w = w.getenv "X509_USER_PROXY" := by
    intro h
    unfold hasDefaultProxy at h
    unfold resolvedProxy
    cases hu : w.currentUid with
    | none => rfl
    | some uid => simp [hu] at h; simp [h]
  refine ⟨tlsCerts_eq_loadSource w key cert, ?_, ?_, ?_, ?_, ?_⟩
  · intro uid hu hs
    have hp : resolvedProxy w = defaultProxyFile uid := by
      unfold resolvedProxy; simp [hu, hs]
    have hne : resolvedProxy w ≠ "" := by
      rw [hp]; unfold defaultProxyFile
      intro hc
      have := congrArg String.length hc
      simp at this
      exact absurd this.1 (by decide)
    rw [credentialSource_of_proxy w key cert hne, hp]
  · intro hd he
    have hp := hnodef hd
    rw [credentialSource_of_proxy w key cert (by rw [hp]; exact he), hp]
  · intro hd he hk
    have hp := hnodef hd
    unfold credentialSource resolvedKey resolvedCert
    rw [hp, he]
    simp [hk]
  · intro hd he hk hek
    have hp := hnodef hd
    unfold credentialSource resolvedKey resolvedCert
    rw [hp, he]
    simp [hk, hek]
  · intro hd he hk hek
    have hp := hnodef hd
    unfold credentialSource resolvedKey
    rw [hp, he]
    simp [hk, hek]

/-- Witness for C5 amended: the default per-user proxy file exists next to
`X509_USER_PROXY` and an explicit key/cert pair; the default file is selected. -/
theorem tlsCerts_precedence_layers_witness :
    (credWorld (proxyEnv "/home/u/proxy.pem") ["/tmp/x509up_u1000"]).currentUid = some "1000"
    ∧ (credWorld (proxyEnv "/home/u/proxy.pem") ["/tmp/x509up_u1000"]).stat
        (defaultProxyFile "1000") = true
    ∧ credentialSource (credWorld (proxyEnv "/home/u/proxy.pem") ["/tmp/x509up_u1000"])
        "user.key" "user.cert" = .proxyFile (defaultProxyFile "1000") :=
  ⟨rfl, by decide,
   (tlsCerts_precedence_layers (credWorld (proxyEnv "/home/u/proxy.pem") ["/tmp/x509up_u1000"])
      "user.key" "user.cert").2.1 "1000" rfl (by decide)⟩

/-- C6 as stated fails: a multipart POST with an empty header map is sent with a
`Content-Type` header, a name outside the header map; a header supplied as
`accept` is sent under the name `Accept`, again a name outside the map; and two
names that differ only in case are recorded under one name, so that the order of
the two values follows the iteration order of the map. -/
theorem built_headers_counterexample :
    run bareWorld
        { plainRequest "POST" "http://example.test/form" with
          Forms := ⟨[("name", "bob")], by decide⟩ }
      = .ok (⟨none, 0⟩,
          ⟨"POST", "http://example.test/form",
            [("Content-Type", "multipart/form-data; boundary=b0")],
            some (.multipart "b0" [.field "name" "bob"])⟩)
    ∧ ({ plainRequest "POST" "http://example.test/form" with
          Forms := ⟨[("name", "bob")], by decide⟩ } : Request).Headers.get? "Content-Type"
      = none
    ∧ run bareWorld
        { plainRequest "GET" "http://example.test/ping" with
          Headers := ⟨[("accept", "a")], by decide⟩ }
      = .ok (⟨none, 0⟩, ⟨"GET", "http://example.test/ping", [("Accept", "a")], none⟩)
    ∧ GoMap.get? ⟨[("accept", "a")], by decide⟩ "Accept" = none
    ∧ run bareWorld
        { plainRequest "GET" "http://example.test/ping" with
          Headers := ⟨[("accept", "a"), ("Accept", "b")], by decide⟩ }
      = .ok (⟨none, 0⟩,
          ⟨"GET", "http://example.test/ping", [("Accept", "a"), ("Accept", "b")], none⟩)
    ∧ run bareWorld
        { plainRequest "GET" "http://example.test/ping" with
          Headers := ⟨[("Accept", "b"), ("accept", "a")], by decide⟩ }
      = .ok (⟨none, 0⟩,
          ⟨"GET", "http://example.test/ping", [("Accept", "b"), ("Accept", "a")], none⟩) := by
  refine ⟨by decide, by decide, by decide, by decide, by decide, by decide⟩

/-- C6 amended: whenever `run` sends a request, the values it carries under any
header name are the values of the entries of the header map whose name has that
canonical MIME header key, preceded, only for `Content-Type` of a multipart POST
(method POST, empty `Data`, non-empty `Forms`), by the multipart content type the
builder sets itself; when the names of the map are in canonical form these are
exactly the entries of the map, each name with its value and nothing under any
other name; and iterating the map in any other order sends a request with the
same method, URL and body and, under every name, the same values up to their
order, in the same order too when no two names of the map share a canonical
key. -/
theorem built_headers_exact (w : World) (r : Request) (c : Client) (req : HttpRequest)
    (hrun : run w r = .ok (c, req)) :
    (∀ name, req.Header.values name
      = (if r.Method = "POST" ∧ r.Data = "" ∧ r.Forms.len > 0 ∧ name = "Content-Type"
         then [FormDataContentType w.boundary] else [])
        ++ callerValues r.Headers name)
    ∧ ((∀ k, k ∈ r.Headers.keys → CanonicalMIMEHeaderKey k = k) →
        ∀ name, req.Header.values name
          = (if r.Method = "POST" ∧ r.Data = "" ∧ r.Forms.len > 0 ∧ name = "Content-Type"
             then [FormDataContentType w.boundary] else [])
            ++ (r.Headers.get? name).toList)
    ∧ (∀ H : GoMap, H.entries.Perm r.Headers.entries →
        ∃ req', run w { r with Headers := H } = .ok (c, req')
          ∧ req'.Method = req.Method ∧ req'.URL = req.URL ∧ req'.Body = req.Body
          ∧ (∀ name, (req'.Header.values name).Perm (req.Header.values name))
          ∧ ((∀ k, k ∈ r.Headers.keys → ∀ k', k' ∈ r.Headers.keys →
                CanonicalMIMEHeaderKey k = CanonicalMIMEHeaderKey k' → k = k') →
              ∀ name, req'.Header.values name = req.Header.values name)) := by
  refine ⟨fun name => run_header_values w r c req hrun name, ?_, ?_⟩
  · intro hcanon name
    rw [run_header_values w r c req hrun name, callerValues_of_canonical r.Headers hcanon name]
  intro H hperm
  obtain ⟨hc, req0, hreq0, hreq⟩ := (run_ok_iff w r c req).1 hrun
  have hrun' : run w { r with Headers := H }
      = .ok (c, { req0 with Header := req0.Header ++ H.entries.map canonEntry }) := by
    rw [run_ok_iff]
    exact ⟨hc, req0, hreq0, rfl⟩
  refine ⟨_, hrun', ?_, ?_, ?_, ?_, ?_⟩
  · rw [hreq]
  · rw [hreq]
  · rw [hreq]
  · intro name
    rw [run_header_values w r c req hrun name,
      run_header_values w { r with Headers := H } c _ hrun' name]
    exact List.Perm.append (List.Perm.refl _) (callerValues_perm r.Headers H hperm name)
  · intro hinj name
    rw [run_header_values w r c req hrun name,
      run_header_values w { r with Headers := H } c _ hrun' name]
    congr 1
    have hlen : (callerValues r.Headers name).length ≤ 1 := by
      unfold callerValues
      rw [List.length_map]
      exact callerEntries_length_le_one r.Headers name hinj
    exact eq_of_perm_of_length_le_one _ _ (callerValues_perm r.Headers H hperm name) hlen

/-- Witness for C6 amended: a GET with two headers, one of them supplied in
lower case. -/
theorem built_headers_exact_witness :
    run bareWorld
        { plainRequest "GET" "http://example.test/ping" with
          Headers := ⟨[("accept", "text/plain"), ("X-Trace", "1")], by decide⟩ }
      = .ok (⟨none, 0⟩,
          ⟨"GET", "http://example.test/ping", [("Accept", "text/plain"), ("X-Trace", "1")],
            none⟩)
    ∧ ∀ name,
        Header.values [("Accept", "text/plain"), ("X-Trace", "1")] name
          = (if "GET" = "POST" ∧ "" = "" ∧ GoMap.empty.len > 0 ∧ name = "Content-Type"
             then [FormDataContentType bareWorld.boundary] else [])
            ++ callerValues ⟨[("accept", "text/plain"), ("X-Trace", "1")], by decide⟩ name :=
  ⟨by decide,
   (built_headers_exact bareWorld
      { plainRequest "GET" "http://example.test/ping" with
        Headers := ⟨[("accept", "text/plain"), ("X-Trace", "1")], by decide⟩ }
      ⟨none, 0⟩
      ⟨"GET", "http://example.test/ping", [("Accept", "text/plain"), ("X-Trace", "1")], none⟩
      (by decide)).1⟩

/-- C7 as stated fails: when the caller supplies both `content-type` and
`Content-Type`, a POST with data is sent with two values under `Content-Type`,
not one; and when the caller supplies `content-type` only, the map has no entry
named `Content-Type`, yet the request carries the value under `Content-Type`. -/
theorem raw_body_content_type_counterexample :
    run bareWorld
        { plainRequest "POST" "http://example.test/api" with
          Data := "x"
          Headers := ⟨[("content-type", "text/plain"), ("Content-Type", "application/json")],
            by decide⟩ }
      = .ok (⟨none, 0⟩,
          ⟨"POST", "http://example.test/api",
            [("Content-Type", "text/plain"), ("Content-Type", "application/json")],
            some (.raw "x")⟩)
    ∧ Header.values [("Content-Type", "text/plain"), ("Content-Type", "application/json")]
        "Content-Type" = ["text/plain", "application/json"]
    ∧ GoMap.get? ⟨[("content-type", "text/plain"), ("Content-Type", "application/json")],
        by decide⟩ "Content-Type" = some "application/json"
    ∧ run bareWorld
        { plainRequest "POST" "http://example.test/api" with
          Data := "x"
          Headers := ⟨[("content-type", "application/json")], by decide⟩ }
      = .ok (⟨none, 0⟩,
          ⟨"POST", "http://example.test/api", [("Content-Type", "application/json")],
            some (.raw "x")⟩)
    ∧ GoMap.get? ⟨[("content-type", "application/json")], by decide⟩ "Content-Type"
      = none := by
  refine ⟨by decide, by decide, by decide, by decide, by decide⟩

/-- C7 amended: raw bodies. For method POST or PUT with non-empty `Data`, the request
builder yields the request whose body is exactly the result of `read(Data)` (it
aborts when `read` aborts); `read(Data)` is the literal `Data` when it does not
begin with `@` or the referenced file does not exist, and the file contents
otherwise; `Forms` is ignored; and every request that `run` sends carries that
body and no header of the builder: under each header name, `Content-Type`
included, it carries exactly the values of the caller entries whose name has that
canonical key, so a `Content-Type` supplied by the caller under a single name
(in any letter case) is present exactly once, and none is present when the
caller supplies none under any such name. -/
theorem raw_body_is_read_data (w : World) (r : Request)
    (hm : r.Method = "POST" ∨ r.Method = "PUT") (hd : r.Data ≠ "") :
    buildRequest w r
      = (match read w r.Data with
         | .ok args => .ok (NewRequest w r.Method r.Url (some (.raw args)))
         | .fatal f => .fatal f
         | .nilDeref s => .nilDeref s)
    ∧ (∀ forms : GoMap, buildRequest w { r with Forms := forms } = buildRequest w r)
    ∧ ((beginsWith r.Data "@" = false ∨ w.stat (sliceFrom1 r.Data) = false) →
        read w r.Data = .ok r.Data)
    ∧ (∀ b, beginsWith r.Data "@" = true → w.stat (sliceFrom1 r.Data) = true →
        w.readFile (sliceFrom1 r.Data) = some b → read w r.Data = .ok b)
    ∧ (∀ c req, run w r = .ok (c, req) →
        (∃ args, read w r.Data = .ok args ∧ req.Body = some (.raw args))
        ∧ req.Method = r.Method ∧ req.URL = r.Url
        ∧ (∀ name, req.Header.values name = callerValues r.Headers name)
        ∧ (∀ k v, (k, v) ∈ r.Headers.entries → CanonicalMIMEHeaderKey k = "Content-Type" →
            (∀ k', k' ∈ r.Headers.keys → CanonicalMIMEHeaderKey k' = "Content-Type" →
              k' = k) →
            req.Header.values "Content-Type" = [v])
        ∧ ((∀ k, k ∈ r.Headers.keys → CanonicalMIMEHeaderKey k ≠ "Content-Type") →
            req.Header.values "Content-Type" = [])) := by
  have hb := buildRequest_raw w r hm hd
  refine ⟨hb, ?_, ?_, ?_, ?_⟩
  · intro forms
    rw [hb, buildRequest_raw w { r with Forms := forms } hm hd]
  · intro h
    unfold read
    rw [if_neg hd]
    rcases h with h | h
    · simp [h]
    · simp [h]
  · intro b h1 h2 h3
    unfold read
    rw [if_neg hd]
    simp [h1, h2, h3]
  · intro c req hrun
    have hvals : ∀ name, req.Header.values name = callerValues r.Headers name := by
      intro name
      rw [run_header_values w r c req hrun name, if_neg (fun hc => hd hc.2.1)]
      simp
    obtain ⟨_, req0, hreq0, hreq⟩ := (run_ok_iff w r c req).1 hrun
    rw [hb] at hreq0
    refine ⟨?_, ?_, ?_, hvals, ?_, ?_⟩
    · cases hr : read w r.Data with
      | fatal f => simp [hr] at hreq0
      | nilDeref s => simp [hr] at hreq0
      | ok args =>
        refine ⟨args, rfl, ?_⟩
        simp only [hr, Res.ok.injEq] at hreq0
        unfold NewRequest at hreq0
        split at hreq0
        · simp only [Option.some.injEq] at hreq0
          subst hreq0; subst hreq; rfl
        · simp at hreq0
    · cases hr : read w r.Data with
      | fatal f => simp [hr] at hreq0
      | nilDeref s => simp [hr] at hreq0
      | ok args =>
        simp only [hr, Res.ok.injEq] at hreq0
        unfold NewRequest at hreq0
        split at hreq0
        · simp only [Option.some.injEq] at hreq0
          subst hreq0; subst hreq; rfl
        · simp at hreq0
    · cases hr : read w r.Data with
      | fatal f => simp [hr] at hreq0
      | nilDeref s => simp [hr] at hreq0
      | ok args =>
        simp only [hr, Res.ok.injEq] at hreq0
        unfold NewRequest at hreq0
        split at hreq0
        · simp only [Option.some.injEq] at hreq0
          subst hreq0; subst hreq; rfl
        · simp at hreq0
    · intro k v hmem hk huniq
      rw [hvals]
      exact callerValues_single r.Headers "Content-Type" k v hmem hk huniq
    · intro hno
      rw [hvals]
      exact callerValues_none r.Headers "Content-Type" hno

/-- Witness for C7 amended: the scenario POST with a JSON payload and one caller-supplied
`Content-Type`, written in lower case, with a non-empty form map that is
ignored. -/
theorem raw_body_is_read_data_witness :
    ("POST" = "POST" ∨ "POST" = "PUT")
    ∧ "\x7b\"a\":1\x7d" ≠ ""
    ∧ run bareWorld
        { plainRequest "POST" "http://example.test/api" with
          Data := "\x7b\"a\":1\x7d"
          Headers := ⟨[("content-type", "application/json")], by decide⟩
          Forms := ⟨[("name", "bob")], by decide⟩ }
      = .ok (⟨none, 0⟩,
          ⟨"POST", "http://example.test/api", [("Content-Type", "application/json")],
            some (.raw "\x7b\"a\":1\x7d")⟩)
    ∧ Header.values [("Content-Type", "application/json")] "Content-Type"
      = ["application/json"] :=
  ⟨Or.inl rfl, by decide, by decide,
   ((raw_body_is_read_data bareWorld
      { plainRequest "POST" "http://example.test/api" with
        Data := "\x7b\"a\":1\x7d"
        Headers := ⟨[("content-type", "application/json")], by decide⟩
        Forms := ⟨[("name", "bob")], by decide⟩ } (Or.inl rfl) (by decide)).2.2.2.2
      ⟨none, 0⟩
      ⟨"POST", "http://example.test/api", [("Content-Type", "application/json")],
        some (.raw "\x7b\"a\":1\x7d")⟩
      (by decide)).2.2.2.2.1 "content-type" "application/json" (by decide) (by decide)
      (by
        intro k hk _
        simpa [GoMap.keys] using hk)⟩

/-- C8 as stated fails: a PUT with empty `Data`, no headers and verbosity 2
dereferences the nil request in the request dump of line 329, before the send
step; and a PUT with empty `Data` on a machine whose proxy file does not parse
ends in `log.Fatal` inside `HttpClient`, with no nil dereference at all. -/
theorem put_empty_data_counterexample :
    run bareWorld { plainRequest "PUT" "http://example.test/item" with Verbose := 2 }
      = .nilDeref .dumpRequest
    ∧ ({ plainRequest "PUT" "http://example.test/item" with Verbose := 2 } : Request).Headers.len
      = 0
    ∧ run { bareWorld with getenv := proxyEnv "/home/u/proxy.pem" }
        (plainRequest "PUT" "http://example.test/item")
      = .fatal .proxyParse := by
  refine ⟨by decide, by decide, by decide⟩

/-- C8 amended: for method PUT with empty `Data`, whatever `Forms` and `Headers`
hold, the request stays nil and nothing is ever sent; once `HttpClient` has
returned a client, the invocation ends in a nil dereference: at the header-adding
step when `Headers` is non-empty, otherwise at the request dump when the
verbosity exceeds 1, and otherwise at the send step. -/
theorem put_empty_data_nil_request (w : World) (r : Request)
    (hm : r.Method = "PUT") (hd : r.Data = "") :
    buildRequest w r = .ok none
    ∧ (∀ c req, run w r ≠ .ok (c, req))
    ∧ (∀ c, HttpClient w r.Key r.Cert r.RootCA r.Timeout = .ok c →
        run w r
          = if r.Headers.len > 0 then .nilDeref .addHeader
            else if r.Verbose > 1 then .nilDeref .dumpRequest
            else .nilDeref .send) := by
  have hb := buildRequest_nil_of_no_data w r (Or.inl ⟨hm, hd⟩)
  refine ⟨hb, ?_, ?_⟩
  · intro c req hrun
    obtain ⟨_, req0, hreq0, _⟩ := (run_ok_iff w r c req).1 hrun
    rw [hb] at hreq0
    simp at hreq0
  · intro c hc
    rw [run_of_nil_request w r hb, hc]

/-- Witness for C8 amended: a PUT with empty `Data` and one header. -/
theorem put_empty_data_nil_request_witness :
    "PUT" = "PUT" ∧ "" = ""
    ∧ run bareWorld
        { plainRequest "PUT" "http://example.test/item" with
          Headers := ⟨[("Accept", "text/plain")], by decide⟩ }
      = .nilDeref .addHeader :=
  ⟨rfl, rfl,
   ((put_empty_data_nil_request bareWorld
      { plainRequest "PUT" "http://example.test/item" with
        Headers := ⟨[("Accept", "text/plain")], by decide⟩ } rfl rfl).2.2
      ⟨none, 0⟩ (by decide)).trans (by decide)⟩

/-- C9 on the code: a POST with empty `Data` and empty `Forms` builds no request;
the request stays nil and the invocation ends in a nil dereference at the send
step (at the header-adding step when a header is supplied). -/
theorem post_empty_data_empty_forms_nil_request :
    buildRequest bareWorld (plainRequest "POST" "http://example.test/upload") = .ok none
    ∧ run bareWorld (plainRequest "POST" "http://example.test/upload") = .nilDeref .send
    ∧ run bareWorld
        { plainRequest "POST" "http://example.test/upload" with
          Headers := ⟨[("Accept", "text/plain")], by decide⟩ }
      = .nilDeref .addHeader := by
  refine ⟨by decide, by decide, by decide⟩

/-- C10 as stated fails: without certificates and with `tout = 9223372037`, the
product `tout * time.Second` exceeds the 64-bit range and the client timeout is a
negative duration, not 9223372037 seconds. -/
theorem HttpClient_timeout_counterexample :
    tlsCerts bareWorld "" "" = .ok []
    ∧ HttpClient bareWorld "" "" "" 9223372037 = .ok ⟨none, -9223372036709551616⟩
    ∧ (-9223372036709551616 : Int) ≠ 9223372037 * Second := by
  refine ⟨by decide, by decide, by decide⟩

/-- C10 amended: when credential resolution yields no certificates, `HttpClient`
returns a client with no transport override (hence no TLS configuration), whose
timeout is `tout` seconds when `0 < tout ≤ 9223372036` and unset when `tout ≤ 0`;
the result is the same for every `rootCA` and every file content, so the root CA
file is not read and cannot cause an error; and whenever certificates are
present, the returned client has a transport whose TLS configuration holds these
certificates with `InsecureSkipVerify` set to true. -/
theorem HttpClient_without_certificates (w : World) (key cert rootCA : String) (tout : Int) :
    (tlsCerts w key cert = .ok [] →
      (∃ c, HttpClient w key cert rootCA tout = .ok c ∧ c.Transport = none)
      ∧ (0 < tout → tout ≤ 9223372036 →
          HttpClient w key cert rootCA tout = .ok ⟨none, tout * Second⟩)
      ∧ (tout ≤ 0 → HttpClient w key cert rootCA tout = .ok ⟨none, 0⟩)
      ∧ (∀ (rootCA' : String) (readFile : String → Option String),
          HttpClient { w with readFile := readFile } key cert rootCA' tout
            = HttpClient w key cert rootCA tout))
    ∧ (∀ certs, certs ≠ [] → tlsCerts w key cert = .ok certs →
        ∀ c, HttpClient w key cert rootCA tout = .ok c →
          ∃ tr, c.Transport = some tr ∧ tr.TLSClientConfig.InsecureSkipVerify = true
            ∧ tr.TLSClientConfig.Certificates = certs) := by
  refine ⟨?_, ?_⟩
  · intro h
    have hc := HttpClient_no_certs w key cert rootCA tout h
    refine ⟨⟨_, hc, rfl⟩, ?_, ?_, ?_⟩
    · intro h0 h1
      rw [hc, if_pos h0, wrapInt64_of_fits]
      · unfold Second; omega
      · unfold Second; omega
    · intro h0
      rw [hc, if_neg (by omega)]
    · intro rootCA' readFile
      have h' : tlsCerts { w with readFile := readFile } key cert = .ok [] := h
      rw [hc, HttpClient_no_certs _ key cert rootCA' tout h']
  · intro certs hne h c hc
    exact HttpClient_with_certs w key cert rootCA tout certs hne h c hc

/-- Witness for C10 amended: no credentials, a root CA file that does not exist,
and a timeout of 30 seconds. -/
theorem HttpClient_without_certificates_witness :
    tlsCerts bareWorld "" "" = .ok []
    ∧ (0 : Int) < 30 ∧ (30 : Int) ≤ 9223372036
    ∧ HttpClient bareWorld "" "" "/no/such/ca.pem" 30 = .ok ⟨none, 30 * Second⟩ :=
  ⟨by decide, by decide, by decide,
   ((HttpClient_without_certificates bareWorld "" "" "/no/such/ca.pem" 30).1
      (by decide)).2.1 (by decide) (by decide)⟩

end Gocurl
